import Mathlib

/-!
Verification development for the TextMe daemon (iMessage bridge to a Claude
worker process).  The definitions below are shallow embeddings of the
TypeScript sources:

* the SQLite layer (`db.ts`, tables `running_tasks`, `message_queue`,
  `processed_messages`),
* the poll loop of `daemon/src/index.ts`,
* the session manager of `daemon/src/claude-session.ts` and the stream-json
  variant `daemon/dist/claude-session.js`.

SQLite rows are modelled as structures, tables as lists of rows, and each
exported db function as a pure function on those lists.  `Date.now()` values
are passed in explicitly as natural numbers.
-/

namespace TextMe

/-- Row of the `running_tasks` table (types.ts `RunningTask`). -/
structure RunningTask where
  id : String
  description : String
  started_at : Nat
  pid : Option Nat
deriving Repr, DecidableEq

/-- Row of the `message_queue` table (types.ts `QueuedMessage`). -/
structure QueuedMessage where
  id : Nat
  message_handle : String
  phone_number : String
  content : String
  queued_at : Nat
deriving Repr, DecidableEq

/-- The daemon database state: the tables touched by the claims.
`processed_messages` keeps only the message ids (the `processed_at` column
is used solely by time-based pruning, which no claim depends on). -/
structure Db where
  running_tasks : List RunningTask
  message_queue : List QueuedMessage
  processed_messages : List String
deriving Repr, DecidableEq

/-- db.ts `setRunningTask`: `DELETE FROM running_tasks` followed by a single
`INSERT` — the table is atomically replaced by exactly one row. -/
def setRunningTask (db : Db) (id description : String) (now : Nat)
    (pid : Option Nat) : Db :=
  { db with running_tasks := [⟨id, description, now, pid⟩] }

/-- db.ts `updateRunningTaskPid`: `UPDATE running_tasks SET pid = ? WHERE id = ?`. -/
def updateRunningTaskPid (db : Db) (id : String) (pid : Nat) : Db :=
  { db with running_tasks :=
      db.running_tasks.map fun t => if t.id = id then { t with pid := some pid } else t }

/-- db.ts `clearRunningTask`: `DELETE FROM running_tasks`. -/
def clearRunningTask (db : Db) : Db :=
  { db with running_tasks := [] }

/-- The operations the program ever performs on the `running_tasks` table. -/
inductive TaskOp where
  | set (id description : String) (now : Nat) (pid : Option Nat)
  | updatePid (id : String) (pid : Nat)
  | clear
deriving Repr, DecidableEq

/-- Apply one `running_tasks` operation. -/
def applyTaskOp (db : Db) : TaskOp → Db
  | .set id description now pid => setRunningTask db id description now pid
  | .updatePid id pid => updateRunningTaskPid db id pid
  | .clear => clearRunningTask db

/-- Fresh AUTOINCREMENT id for the queue table. -/
def nextQueueId (db : Db) : Nat :=
  (db.message_queue.map (·.id)).foldl max 0 + 1

/-- db.ts `queueMessage`: `INSERT OR IGNORE INTO message_queue ...` where
`message_handle` carries a UNIQUE constraint — the insert is ignored exactly
when a row with the same handle is already present. -/
def queueMessage (db : Db) (messageHandle phoneNumber content : String)
    (now : Nat) : Db :=
  if db.message_queue.any (fun q => q.message_handle == messageHandle) then db
  else
    { db with message_queue :=
        db.message_queue ++ [⟨nextQueueId db, messageHandle, phoneNumber, content, now⟩] }

/-- An empty database, the state `initDb` creates on first run. -/
def emptyDb : Db := ⟨[], [], []⟩

lemma applyTaskOp_length_le (db : Db) (op : TaskOp)
    (h : db.running_tasks.length ≤ 1) :
    (applyTaskOp db op).running_tasks.length ≤ 1 := by
  cases op with
  | set id description now pid => simp [applyTaskOp, setRunningTask]
  | updatePid id pid => simpa [applyTaskOp, updateRunningTaskPid] using h
  | clear => simp [applyTaskOp, clearRunningTask]

lemma foldl_applyTaskOp_length_le (ops : List TaskOp) :
    ∀ db : Db, db.running_tasks.length ≤ 1 →
      (ops.foldl applyTaskOp db).running_tasks.length ≤ 1 := by
  induction ops with
  | nil => intro db h; simpa using h
  | cons op rest ih =>
      intro db h
      exact ih (applyTaskOp db op) (applyTaskOp_length_le db op h)

/-- C1.  First conjunct: starting from the freshly initialised database,
any sequence of `running_tasks` operations (`setRunningTask`,
`updateRunningTaskPid`, `clearRunningTask`) leaves at most one row in the
table — `setRunningTask` deletes all rows before inserting its single row.
Second conjunct: `queueMessage` (the `submit`-while-busy path of the poll
loop) grows the queue by exactly one row, or by zero rows when a row with
the same source event id (`message_handle`) is already queued. -/
theorem c1_running_task_singleton_and_enqueue_idempotent :
    (∀ ops : List TaskOp,
        (ops.foldl applyTaskOp emptyDb).running_tasks.length ≤ 1) ∧
    (∀ (db : Db) (messageHandle phoneNumber content : String) (now : Nat),
        (queueMessage db messageHandle phoneNumber content now).message_queue.length =
          if db.message_queue.any (fun q => q.message_handle == messageHandle) then
            db.message_queue.length
          else db.message_queue.length + 1) := by
  constructor
  · intro ops
    exact foldl_applyTaskOp_length_le ops emptyDb (by simp [emptyDb])
  · intro db messageHandle phoneNumber content now
    by_cases h : db.message_queue.any (fun q => q.message_handle == messageHandle)
    · simp [queueMessage, h]
    · simp [queueMessage, h]

/-- db.ts `getNextQueuedMessage`:
`SELECT ... FROM message_queue ORDER BY queued_at ASC LIMIT 1` — the row
with the smallest `queued_at` (first such row on a tie). -/
def selectMin : List QueuedMessage → Option QueuedMessage
  | [] => none
  | x :: xs =>
      match selectMin xs with
      | none => some x
      | some m => if m.queued_at < x.queued_at then some m else some x

lemma selectMin_mem : ∀ {q : List QueuedMessage} {m : QueuedMessage},
    selectMin q = some m → m ∈ q := by
  intro q
  induction q with
  | nil => intro m h; simp [selectMin] at h
  | cons x xs ih =>
      intro m h
      simp only [selectMin] at h
      cases hxs : selectMin xs with
      | none => rw [hxs] at h; simp at h; simp [h]
      | some m' =>
          rw [hxs] at h
          by_cases hlt : m'.queued_at < x.queued_at
          · simp [hlt] at h
            subst h
            exact List.mem_cons_of_mem x (ih hxs)
          · simp [hlt] at h
            simp [h]

lemma selectMin_none {q : List QueuedMessage} (h : selectMin q = none) :
    q = [] := by
  cases q with
  | nil => rfl
  | cons x xs =>
      simp only [selectMin] at h
      cases hxs : selectMin xs with
      | none => rw [hxs] at h; simp at h
      | some m => rw [hxs] at h; by_cases hlt : m.queued_at < x.queued_at <;>
          simp [hlt] at h

lemma selectMin_le : ∀ {q : List QueuedMessage} {m : QueuedMessage},
    selectMin q = some m → ∀ x ∈ q, m.queued_at ≤ x.queued_at := by
  intro q
  induction q with
  | nil => intro m h; simp [selectMin] at h
  | cons a as ih =>
      intro m h x hx
      simp only [selectMin] at h
      cases has : selectMin as with
      | none =>
          rw [has] at h
          simp at h
          subst h
          have hase : as = [] := selectMin_none has
          subst hase
          simp at hx
          simp [hx]
      | some m' =>
          rw [has] at h
          rcases List.mem_cons.mp hx with rfl | hx'
          · by_cases hlt : m'.queued_at < x.queued_at
            · simp [hlt] at h; subst h; exact le_of_lt hlt
            · simp [hlt] at h; subst h; exact le_refl _
          · by_cases hlt : m'.queued_at < a.queued_at
            · simp [hlt] at h; subst h; exact ih has x hx'
            · simp [hlt] at h
              subst h
              exact le_trans (not_lt.mp hlt) (ih has x hx')

lemma filter_ne_length_lt {q : List QueuedMessage} {m : QueuedMessage}
    (hm : m ∈ q) :
    (q.filter fun x => x.id != m.id).length < q.length := by
  have : ¬ ((fun x => x.id != m.id) m = true) := by simp
  exact List.length_filter_lt_length_iff_exists.mpr ⟨m, hm, this⟩

/-- One drain round plus recursion, fuelled for structural termination:
pop the oldest queued row (`getNextQueuedMessage`), delete it by id
(`removeQueuedMessage`), process it, and recurse (via `processMessage`,
which ends by calling `processQueue` again). -/
def drainAux : Nat → List QueuedMessage → List QueuedMessage
  | 0, _ => []
  | fuel + 1, q =>
      match selectMin q with
      | none => []
      | some m => m :: drainAux fuel (q.filter fun x => x.id != m.id)

/-- The order in which `processQueue` starts queued rows when the queue is
drained to exhaustion.  `q.length` rounds always suffice because each round
removes the popped row. -/
def drainOrder (q : List QueuedMessage) : List QueuedMessage :=
  drainAux q.length q

lemma mem_drainAux : ∀ {fuel : Nat} {q : List QueuedMessage}
    {x : QueuedMessage}, x ∈ drainAux fuel q → x ∈ q := by
  intro fuel
  induction fuel with
  | zero => intro q x hx; simp [drainAux] at hx
  | succ n ih =>
      intro q x hx
      simp only [drainAux] at hx
      cases hsel : selectMin q with
      | none => rw [hsel] at hx; simp at hx
      | some m =>
          rw [hsel] at hx
          simp only [List.mem_cons] at hx
          rcases hx with rfl | hx'
          · exact selectMin_mem hsel
          · exact List.mem_of_mem_filter (ih hx')

lemma drainAux_pairwise_lt :
    ∀ {fuel : Nat} {q : List QueuedMessage},
      (q.map (·.queued_at)).Nodup →
      List.Pairwise (fun a b => a.queued_at < b.queued_at) (drainAux fuel q) := by
  intro fuel
  induction fuel with
  | zero => intro q _; simp [drainAux]
  | succ n ih =>
      intro q hnd
      simp only [drainAux]
      cases hsel : selectMin q with
      | none => simp
      | some m =>
          simp only [List.pairwise_cons]
          have hmem : m ∈ q := selectMin_mem hsel
          have hsub : List.Sublist
              ((q.filter fun x => x.id != m.id).map (·.queued_at))
              (q.map (·.queued_at)) := (List.filter_sublist q).map _
          constructor
          · intro x hx
            have hxq' : x ∈ q.filter fun y => y.id != m.id := mem_drainAux hx
            have hxq : x ∈ q := List.mem_of_mem_filter hxq'
            have hle : m.queued_at ≤ x.queued_at := selectMin_le hsel x hxq
            have hne : x.queued_at ≠ m.queued_at := by
              intro heq
              have hinj := List.inj_on_of_nodup_map hnd
              have hxm : x = m := hinj hxq hmem heq
              subst hxm
              have := List.of_mem_filter hxq'
              simp at this
            exact lt_of_le_of_ne hle (Ne.symm hne)
          · exact ih (hnd.sublist hsub)

lemma filter_ne_perm {q : List QueuedMessage} {m : QueuedMessage}
    (hid : (q.map (·.id)).Nodup) (hm : m ∈ q) :
    List.Perm q (m :: q.filter fun x => x.id != m.id) := by
  induction q with
  | nil => simp at hm
  | cons a as ih =>
      simp only [List.map_cons, List.nodup_cons] at hid
      rcases List.mem_cons.mp hm with rfl | hm'
      · have hself : as.filter (fun x => x.id != m.id) = as := by
          apply List.filter_eq_self.mpr
          intro x hx
          simp only [bne_iff_ne, ne_eq, decide_eq_true_eq]
          intro heq
          exact hid.1 (heq ▸ List.mem_map_of_mem (·.id) hx)
        simp [List.filter_cons, hself]
      · have hne : a.id ≠ m.id := by
          intro heq
          exact hid.1 (heq ▸ List.mem_map_of_mem (·.id) hm')
        have step := ih hid.2 hm'
        have hfc : List.filter (fun x => x.id != m.id) (a :: as) =
            a :: List.filter (fun x => x.id != m.id) as := by
          simp [List.filter_cons, hne]
        rw [hfc]
        exact (step.cons a).trans (List.Perm.swap m a _)

lemma drainAux_perm :
    ∀ {fuel : Nat} {q : List QueuedMessage}, q.length ≤ fuel →
      (q.map (·.id)).Nodup → List.Perm (drainAux fuel q) q := by
  intro fuel
  induction fuel with
  | zero =>
      intro q hlen _
      have : q = [] := List.length_eq_zero.mp (Nat.le_zero.mp hlen)
      simp [this, drainAux]
  | succ n ih =>
      intro q hlen hid
      simp only [drainAux]
      cases hsel : selectMin q with
      | none => simp [selectMin_none hsel]
      | some m =>
          have hmem : m ∈ q := selectMin_mem hsel
          have hlt := filter_ne_length_lt hmem
          have hsub : List.Sublist ((q.filter fun x => x.id != m.id).map (·.id))
              (q.map (·.id)) := (List.filter_sublist q).map _
          have htail := ih (Nat.le_of_lt_succ (Nat.lt_of_lt_of_le hlt hlen))
            (hid.sublist hsub)
          exact (htail.cons m).trans (filter_ne_perm hid hmem).symm

/-- C3.  When the executor drains the queue, queued rows are started in
strictly ascending order of their enqueue time, and every queued row is
started exactly once (the drain order is a permutation of the queue).
Hypotheses: `queued_at` values are pairwise distinct (the claimed scenario
has t = 1, 2, 3) and the AUTOINCREMENT primary keys are distinct, which the
database guarantees. -/
theorem c3_queue_drains_fifo (q : List QueuedMessage)
    (ht : (q.map (·.queued_at)).Nodup) (hid : (q.map (·.id)).Nodup) :
    List.Pairwise (fun a b => a.queued_at < b.queued_at) (drainOrder q) ∧
    List.Perm (drainOrder q) q :=
  ⟨drainAux_pairwise_lt ht, drainAux_perm (Nat.le_refl _) hid⟩

/-- Witness for C3: requests R1, R2, R3 enqueued at t = 1, 2, 3 while busy
are started in the order R1, R2, R3. -/
theorem c3_queue_drains_fifo_witness :
    (let r1 : QueuedMessage := ⟨1, "h1", "+15550001111", "do X", 1⟩
     let r2 : QueuedMessage := ⟨2, "h2", "+15550001111", "do Y", 2⟩
     let r3 : QueuedMessage := ⟨3, "h3", "+15550001111", "do Z", 3⟩
     List.Pairwise (fun a b => a.queued_at < b.queued_at)
        (drainOrder [r1, r2, r3]) ∧
     List.Perm (drainOrder [r1, r2, r3]) [r1, r2, r3]) ∧
    (let r1 : QueuedMessage := ⟨1, "h1", "+15550001111", "do X", 1⟩
     let r2 : QueuedMessage := ⟨2, "h2", "+15550001111", "do Y", 2⟩
     let r3 : QueuedMessage := ⟨3, "h3", "+15550001111", "do Z", 3⟩
     drainOrder [r3, r1, r2] = [r1, r2, r3]) :=
  ⟨c3_queue_drains_fifo _ (by decide) (by decide), by decide⟩

/-!
## Poll loop (daemon/src/index.ts, `poll`)

For each fetched message the loop runs, in order:
dedup (`isMessageProcessed` — skip), whitelist (`isWhitelisted` — mark and
skip), empty check (no text and no media — mark and skip), then
`markMessageProcessed` followed by command classification and dispatch.
Every reply to the sender happens inside the classification and dispatch
region (after `markMessageProcessed`); the three skip paths send nothing.
The ghost field `classified` records the handles that reached command
classification.
-/

/-- A fetched inbound message (types.ts `SendblueMessage`, the fields the
poll loop reads). -/
structure PollMsg where
  message_handle : String
  from_number : String
  content : String
  media_url : Option String
deriving Repr, DecidableEq

/-- Poll-loop state: the durable `processed_messages` id set and the ghost
trace of handles dispatched to command classification. -/
structure PollState where
  processed : List String
  classified : List String
deriving Repr, DecidableEq

/-- Model of the JavaScript `String.prototype.trim`: strip whitespace from
both ends.  Defined structurally over the character list so that concrete
instances evaluate inside the kernel. -/
def trimString (s : String) : String :=
  String.mk (((s.toList.dropWhile Char.isWhitespace).reverse.dropWhile
      Char.isWhitespace).reverse)

/-- index.ts `isWhitelisted`: both sides are normalised by stripping
non-digit characters (`replace(/\D/g, "")`) before comparison. -/
def normalizePhone (s : String) : String :=
  String.mk (s.toList.filter Char.isDigit)

/-- index.ts `isWhitelisted`. -/
def isWhitelisted (whitelist : List String) (phoneNumber : String) : Bool :=
  whitelist.any fun w => normalizePhone w == normalizePhone phoneNumber

/-- db.ts `markMessageProcessed`: `INSERT OR IGNORE INTO processed_messages`. -/
def markProcessed (st : PollState) (messageId : String) : PollState :=
  if messageId ∈ st.processed then st
  else { st with processed := st.processed ++ [messageId] }

/-- One iteration of the `for (const msg of messages)` body of `poll`,
up to and including the decision whether the message reaches command
classification. -/
def pollStep (whitelist : List String) (st : PollState) (msg : PollMsg) :
    PollState :=
  if msg.message_handle ∈ st.processed then st
  else if ¬ isWhitelisted whitelist msg.from_number then
    markProcessed st msg.message_handle
  else
    let textContent := trimString msg.content
    if textContent = "" ∧ msg.media_url = none then
      markProcessed st msg.message_handle
    else
      { markProcessed st msg.message_handle with
        classified := st.classified ++ [msg.message_handle] }

/-- Running the poll loop over a whole sequence of fetched messages
(possibly the concatenation of many poll cycles — the `processed` set is
durable, so this also covers process restarts). -/
def pollRun (whitelist : List String) (st : PollState)
    (msgs : List PollMsg) : PollState :=
  msgs.foldl (pollStep whitelist) st

lemma markProcessed_mem_self (st : PollState) (h : String) :
    h ∈ (markProcessed st h).processed := by
  unfold markProcessed
  by_cases hm : h ∈ st.processed
  · simp [hm]
  · simp [hm]

lemma markProcessed_classified (st : PollState) (h : String) :
    (markProcessed st h).classified = st.classified := by
  unfold markProcessed
  by_cases hm : h ∈ st.processed <;> simp [hm]

lemma markProcessed_mono {st : PollState} {h h' : String}
    (hm : h ∈ st.processed) : h ∈ (markProcessed st h').processed := by
  unfold markProcessed
  by_cases hh : h' ∈ st.processed <;> simp [hh, hm]

/-- The dedup invariant: a handle was classified at most once, and if it was
classified at all then it is recorded in the processed set. -/
def DedupInv (h : String) (st : PollState) : Prop :=
  st.classified.count h ≤ 1 ∧ (1 ≤ st.classified.count h → h ∈ st.processed)

lemma pollStep_dedupInv (whitelist : List String) (h : String)
    (st : PollState) (msg : PollMsg) (hinv : DedupInv h st) :
    DedupInv h (pollStep whitelist st msg) := by
  obtain ⟨hle, himp⟩ := hinv
  unfold pollStep
  by_cases h1 : msg.message_handle ∈ st.processed
  · simpa [h1] using ⟨hle, himp⟩
  · simp only [h1, if_false]
    by_cases h2 : ¬ isWhitelisted whitelist msg.from_number
    · refine if_pos h2 ▸ ⟨?_, ?_⟩
      · simpa [markProcessed_classified] using hle
      · intro hc
        exact markProcessed_mono (himp (by simpa [markProcessed_classified] using hc))
    · simp only [h2, if_false]
      by_cases h3 : trimString msg.content = "" ∧ msg.media_url = none
      · refine if_pos h3 ▸ ⟨?_, ?_⟩
        · simpa [markProcessed_classified] using hle
        · intro hc
          exact markProcessed_mono (himp (by simpa [markProcessed_classified] using hc))
      · simp only [h3, if_false]
        by_cases hh : msg.message_handle = h
        · subst hh
          have hc0 : st.classified.count msg.message_handle = 0 := by
            by_contra hne
            exact h1 (himp (Nat.one_le_iff_ne_zero.mpr hne))
          constructor
          · simp [List.count_append, hc0]
          · intro _
            exact markProcessed_mem_self st msg.message_handle
        · constructor
          · simpa [List.count_append, List.count_singleton, hh] using hle
          · intro hc
            have hc' : 1 ≤ st.classified.count h := by
              simpa [List.count_append, List.count_singleton, hh] using hc
            exact markProcessed_mono (himp hc')

lemma pollRun_dedupInv (whitelist : List String) (h : String)
    (msgs : List PollMsg) :
    ∀ st : PollState, DedupInv h st →
      DedupInv h (pollRun whitelist st msgs) := by
  induction msgs with
  | nil => intro st hinv; simpa [pollRun] using hinv
  | cons m rest ih =>
      intro st hinv
      exact ih _ (pollStep_dedupInv whitelist h st m hinv)

/-- C2.  Starting from the freshly initialised database (empty processed
set), over any sequence of fetched inbound messages — including the same
event fetched twice and sequences spanning restarts, since the processed
set is durable — every message handle is dispatched to command
classification at most once. -/
theorem c2_dedup_at_most_once (whitelist : List String)
    (msgs : List PollMsg) (h : String) :
    ((pollRun whitelist ⟨[], []⟩ msgs).classified).count h ≤ 1 :=
  (pollRun_dedupInv whitelist h msgs ⟨[], []⟩ (by simp [DedupInv])).1

/-- C9 counterexample.  A whitelisted sender with an EMPTY body but a media
attachment: the poll loop builds a media notice as the content and the
event IS dispatched to command classification (the skip applies only when
there is no text AND no media), contradicting the claim that every event
with an empty body is dropped before classification. -/
theorem c9_empty_body_counterexample :
    (let msg : PollMsg :=
      ⟨"m1", "+1 (555) 123-0000", "", some "https://example.com/a.jpg"⟩
     (pollStep ["+15551230000"] ⟨[], []⟩ msg).classified = ["m1"] ∧
      msg.content = "") := by
  constructor
  · decide
  · rfl

/-- C9 (amended).  For every fetched inbound event whose sender is not
whitelisted, or whose body is empty AND which carries no media attachment,
the event ends up marked processed, is not dispatched to command
classification (hence neither classified nor executed), and — since every
reply in the loop body happens inside the classification region — no reply
is sent to the sender. -/
theorem c9_unwhitelisted_or_empty_dropped (whitelist : List String)
    (st : PollState) (msg : PollMsg)
    (h : isWhitelisted whitelist msg.from_number = false ∨
        (trimString msg.content = "" ∧ msg.media_url = none)) :
    (pollStep whitelist st msg).classified = st.classified ∧
    msg.message_handle ∈ (pollStep whitelist st msg).processed := by
  unfold pollStep
  by_cases h1 : msg.message_handle ∈ st.processed
  · simp [h1]
  · simp only [h1, if_false]
    by_cases h2 : ¬ isWhitelisted whitelist msg.from_number
    · simp only [h2, if_true]
      exact ⟨markProcessed_classified st _, markProcessed_mem_self st _⟩
    · have hw : isWhitelisted whitelist msg.from_number = true := by
        simpa using h2
      have h3 : trimString msg.content = "" ∧ msg.media_url = none := by
        rcases h with hfalse | hempty
        · rw [hw] at hfalse; cases hfalse
        · exact hempty
      simp only [h2, if_false, h3, and_self, if_true]
      exact ⟨markProcessed_classified st _, markProcessed_mem_self st _⟩

/-- Witness for the amended C9: an unwhitelisted sender is marked processed
and never classified; likewise a whitelisted sender with empty body and no
media. -/
theorem c9_unwhitelisted_or_empty_dropped_witness :
    (let spamMsg : PollMsg := ⟨"m2", "+19998887777", "buy now", none⟩
     (pollStep ["+15551230000"] ⟨[], []⟩ spamMsg).classified = [] ∧
      "m2" ∈ (pollStep ["+15551230000"] ⟨[], []⟩ spamMsg).processed) ∧
    (let emptyMsg : PollMsg := ⟨"m3", "+15551230000", "  ", none⟩
     (pollStep ["+15551230000"] ⟨[], []⟩ emptyMsg).classified = [] ∧
      "m3" ∈ (pollStep ["+15551230000"] ⟨[], []⟩ emptyMsg).processed) := by
  constructor
  · exact c9_unwhitelisted_or_empty_dropped ["+15551230000"] ⟨[], []⟩
      ⟨"m2", "+19998887777", "buy now", none⟩ (Or.inl (by decide))
  · exact c9_unwhitelisted_or_empty_dropped ["+15551230000"] ⟨[], []⟩
      ⟨"m3", "+15551230000", "  ", none⟩ (Or.inr (by decide))

/-!
## Session manager (daemon/src/claude-session.ts)

`ClaudeSession` owns at most one spawned worker process.  `send` records the
running task (`setRunningTask`) when a task id is given, spawns the process
and remembers it in `currentProcess`; `kill` terminates the process and runs
`cleanup`, which clears the RunningTask slot when a task id is recorded.
`interruptCurrentTask` is the module-level interruption entry point.
-/

/-- In-memory state of a `ClaudeSession` instance (the fields the claims
touch).  `currentProcess` holds the pid of the live worker process, if any. -/
structure ClaudeSessionState where
  isActive_ : Bool
  currentTaskId : Option String
  currentProcess : Option Nat
  partialOutput : String
deriving Repr, DecidableEq

/-- The module-level session manager plus the durable `running_tasks` table
it writes through db.ts. -/
structure SessionWorld where
  currentSession : Option ClaudeSessionState
  currentDir : String
  running_tasks : List RunningTask
deriving Repr, DecidableEq

/-- `ClaudeSession.cleanup`: if a task id is recorded, clear the RunningTask
slot (db `clearRunningTask`, which deletes every row) and forget the id. -/
def sessionCleanup (s : ClaudeSessionState) (tasks : List RunningTask) :
    ClaudeSessionState × List RunningTask :=
  match s.currentTaskId with
  | some _ => ({ s with currentTaskId := none }, [])
  | none => (s, tasks)

/-- `ClaudeSession.kill`: SIGTERM the current process if there is one, set
`currentProcess` to null, then `cleanup`. -/
def sessionKill (s : ClaudeSessionState) (tasks : List RunningTask) :
    ClaudeSessionState × List RunningTask :=
  sessionCleanup { s with currentProcess := none } tasks

/-- `ClaudeSession.isProcessing`: `currentProcess !== null`. -/
def isProcessing (s : ClaudeSessionState) : Bool :=
  s.currentProcess.isSome

/-- claude-session.ts `interruptCurrentTask`: if the current session is
processing, read the partial output, kill the session and return the
partial output; otherwise return null and touch nothing. -/
def interruptCurrentTask (w : SessionWorld) : Option String × SessionWorld :=
  match w.currentSession with
  | some s =>
      if isProcessing s then
        let partial_ := s.partialOutput
        let (s2, tasks2) := sessionKill s w.running_tasks
        (some partial_, { w with currentSession := some s2, running_tasks := tasks2 })
      else (none, w)
  | none => (none, w)

/-- C4.  First conjunct: if a worker process is streaming (the session has a
live `currentProcess`) and a task id is recorded — which is always the case
in the daemon, since `askClaude` passes a task id to `send` and `send`
stores it before spawning — then `interrupt()` returns exactly the partial
output accumulated so far, clears the RunningTask slot, and terminates the
worker process.  Second conjunct: if no worker process is running (no
session, or a session without a live process), `interrupt()` returns null
and the whole state is unchanged. -/
theorem c4_interrupt_partial_or_null (w : SessionWorld) :
    (∀ s : ClaudeSessionState, w.currentSession = some s →
        s.currentProcess.isSome = true → s.currentTaskId.isSome = true →
        (interruptCurrentTask w).1 = some s.partialOutput ∧
        (interruptCurrentTask w).2.running_tasks = [] ∧
        ∃ s2, (interruptCurrentTask w).2.currentSession = some s2 ∧
          s2.currentProcess = none) ∧
    ((∀ s : ClaudeSessionState, w.currentSession = some s →
        s.currentProcess = none) →
      interruptCurrentTask w = (none, w)) := by
  constructor
  · intro s hs hproc htask
    obtain ⟨tid, htid⟩ := Option.isSome_iff_exists.mp htask
    unfold interruptCurrentTask
    rw [hs]
    simp only [isProcessing, hproc, if_true]
    unfold sessionKill sessionCleanup
    rw [htid]
    simp
  · intro hidle
    unfold interruptCurrentTask
    cases hs : w.currentSession with
    | none => rfl
    | some s =>
        have : s.currentProcess = none := hidle s hs
        simp [isProcessing, this]

/-- Witness for C4: a streaming session returns its partial output and
clears the slot; an idle world is untouched and gets null. -/
theorem c4_interrupt_partial_or_null_witness :
    (let streaming : SessionWorld :=
      ⟨some ⟨true, some "task-1", some 4242, "partial text so far"⟩,
        "/Users/alice", [⟨"task-1", "build", 100, some 4242⟩]⟩
     (interruptCurrentTask streaming).1 = some "partial text so far" ∧
     (interruptCurrentTask streaming).2.running_tasks = [] ∧
     ∃ s2, (interruptCurrentTask streaming).2.currentSession = some s2 ∧
        s2.currentProcess = none) ∧
    (let idle : SessionWorld :=
      ⟨some ⟨true, none, none, ""⟩, "/Users/alice", []⟩
     interruptCurrentTask idle = (none, idle)) := by
  constructor
  · exact (c4_interrupt_partial_or_null _).1
      ⟨true, some "task-1", some 4242, "partial text so far"⟩ rfl rfl rfl
  · exact (c4_interrupt_partial_or_null _).2
      (fun s hs => by cases hs; rfl)

/-!
## Worker timeout (dist/claude-session.js, `sendAttempt`, lines 182-193)

After 10 minutes a timer kills the worker; if the accumulated text output is
non-empty after trimming, `send` resolves with the trimmed output plus the
timeout marker, otherwise it rejects with a timeout error.  (The src
variant claude-session.ts lines 258-269 has the same shape with marker
`[Response timed out]`.)
-/

/-- The resolution performed by the 10-minute timeout handler, as a function
of the accumulated text output at the moment the timer fires. -/
def timeoutResolve (textOutput : String) : Except String String :=
  if trimString textOutput ≠ "" then
    .ok (trimString textOutput ++ "\n\n[Timed out]")
  else .error "Response timeout"

/-- C5 counterexample.  The claim resolves the two branches by
STRING-non-emptiness of the partial output, but the code tests emptiness
after trimming: with whitespace-only partial output (non-empty as a string)
`send` rejects with the timeout error instead of resolving. -/
theorem c5_whitespace_output_counterexample :
    (" " : String) ≠ "" ∧ timeoutResolve " " = .error "Response timeout" := by
  constructor
  · decide
  · rfl

/-- C5 (amended).  If the worker exceeds the hard 10-minute timeout and the
partial output is non-empty AFTER TRIMMING, `send` resolves with the
trimmed partial output suffixed with the timeout marker; if the partial
output is empty or whitespace-only, `send` rejects with a timeout error. -/
theorem c5_timeout_partial_output (textOutput : String) :
    (trimString textOutput ≠ "" →
      timeoutResolve textOutput =
        .ok (trimString textOutput ++ "\n\n[Timed out]")) ∧
    (trimString textOutput = "" →
      timeoutResolve textOutput = .error "Response timeout") := by
  constructor
  · intro h
    simp [timeoutResolve, h]
  · intro h
    simp [timeoutResolve, h]

/-- Witness for the amended C5: 500 characters of output yield the output
plus the marker; no output yields the timeout error. -/
theorem c5_timeout_partial_output_witness :
    (trimString "All tests pass." ≠ "" →
      timeoutResolve "All tests pass." =
        .ok (trimString "All tests pass." ++ "\n\n[Timed out]")) ∧
    (trimString "" = "" → timeoutResolve "" = .error "Response timeout") :=
  ⟨(c5_timeout_partial_output "All tests pass.").1,
    (c5_timeout_partial_output "").2⟩

/-!
## Retry with backoff (dist/claude-session.js, `send`, lines 59-84)

`send` makes up to `maxRetries = 3` attempts.  A failed attempt whose error
message contains one of the transient markers is retried after
`baseDelayMs * 2 ^ (attempt - 1)` milliseconds; a non-transient failure, or
a failure on the last attempt, is thrown immediately.
-/

/-- Does the character list `s` start with `pat`?  (Helper for the model of
the JavaScript `String.prototype.includes`.) -/
def charsStartWith : List Char → List Char → Bool
  | _, [] => true
  | [], _ :: _ => false
  | a :: as, b :: bs => a == b && charsStartWith as bs

/-- Does the character list `s` contain `pat` as a contiguous run? -/
def charsContain : List Char → List Char → Bool
  | [], pat => pat.isEmpty
  | a :: as, pat => charsStartWith (a :: as) pat || charsContain as pat

/-- Model of the JavaScript `String.prototype.includes`. -/
def containsSubstring (s pat : String) : Bool :=
  charsContain s.toList pat.toList

/-- The transient-failure test of `send`: the error text contains one of
the overload / rate-limit markers. -/
def isRetryableError (errorMsg : String) : Bool :=
  containsSubstring errorMsg "529" ||
  containsSubstring errorMsg "overload" ||
  containsSubstring errorMsg "Overloaded" ||
  containsSubstring errorMsg "rate_limit" ||
  containsSubstring errorMsg "capacity"

/-- `const maxRetries = 3` — the initial attempt plus up to 2 retries. -/
def maxRetries : Nat := 3

/-- `const baseDelayMs = 5000`. -/
def baseDelayMs : Nat := 5000

/-- Trace of one `send` call: the final result, the backoff delays waited
(in order), and the number of attempts made. -/
structure SendTrace where
  result : Except String String
  delays : List Nat
  attemptsMade : Nat
deriving Repr

/-- The retry loop of `send`, from attempt number `attempt` on, where
`attempts n` is the outcome of the n-th `sendAttempt`.  The fuel argument
makes the recursion structural; `send` supplies `maxRetries`, which is
never exhausted because the guard `attempt < maxRetries` stops earlier. -/
def sendFrom (attempts : Nat → Except String String) :
    Nat → Nat → SendTrace
  | 0, _ => ⟨.error "Unexpected: retry loop exited without return or throw", [], 0⟩
  | fuel + 1, attempt =>
      match attempts attempt with
      | .ok r => ⟨.ok r, [], 1⟩
      | .error e =>
          if isRetryableError e && decide (attempt < maxRetries) then
            let rest := sendFrom attempts fuel (attempt + 1)
            ⟨rest.result, baseDelayMs * 2 ^ (attempt - 1) :: rest.delays,
              rest.attemptsMade + 1⟩
          else ⟨.error e, [], 1⟩

/-- `ClaudeSession.send`: run the retry loop from attempt 1. -/
def send (attempts : Nat → Except String String) : SendTrace :=
  sendFrom attempts maxRetries 1

/-- C6.  For every sequence of attempt outcomes: at most 3 attempts are made
(2 retries beyond the first); one backoff delay precedes each retry and the
i-th retry waits `baseDelayMs * 2 ^ i` for the 0-based i (that is,
base x 2 ^ (attempt - 1) after failing attempt number i + 1); every
non-final attempt failed with a transient (retryable) error — so a
non-transient failure or exhaustion propagates the error immediately with
no further attempts; and the overall result is exactly the outcome of the
final attempt made. -/
theorem c6_retry_backoff_policy (attempts : Nat → Except String String) :
    (send attempts).attemptsMade ≤ 3 ∧
    (send attempts).delays.length = (send attempts).attemptsMade - 1 ∧
    (∀ i, i < (send attempts).delays.length →
        (send attempts).delays[i]? = some (5000 * 2 ^ i)) ∧
    (∀ k, 1 ≤ k → k < (send attempts).attemptsMade →
        ∃ e, attempts k = .error e ∧ isRetryableError e = true) ∧
    (send attempts).result = attempts (send attempts).attemptsMade := by
  cases h1 : attempts 1 with
  | ok r1 =>
      have hsend : send attempts = ⟨.ok r1, [], 1⟩ := by
        simp [send, sendFrom, h1]
      rw [hsend]
      refine ⟨by norm_num, by norm_num, ?_, ?_, h1.symm⟩
      · intro i hi
        simp at hi
      · intro k hk1 hk2
        simp at hk2
        omega
  | error e1 =>
      by_cases hr1 : isRetryableError e1
      · cases h2 : attempts 2 with
        | ok r2 =>
            have hsend : send attempts = ⟨.ok r2, [5000], 2⟩ := by
              simp [send, sendFrom, h1, h2, hr1, maxRetries, baseDelayMs]
            rw [hsend]
            refine ⟨by norm_num, by norm_num, ?_, ?_, h2.symm⟩
            · intro i hi
              simp at hi
              subst hi
              norm_num
            · intro k hk1 hk2
              simp at hk2
              have hk : k = 1 := by omega
              subst hk
              exact ⟨e1, h1, hr1⟩
        | error e2 =>
            by_cases hr2 : isRetryableError e2
            · cases h3 : attempts 3 with
              | ok r3 =>
                  have hsend : send attempts = ⟨.ok r3, [5000, 10000], 3⟩ := by
                    simp [send, sendFrom, h1, h2, h3, hr1, hr2, maxRetries,
                      baseDelayMs]
                  rw [hsend]
                  refine ⟨by norm_num, by norm_num, ?_, ?_, h3.symm⟩
                  · intro i hi
                    simp at hi
                    interval_cases i
                    · norm_num
                    · norm_num
                  · intro k hk1 hk2
                    simp at hk2
                    interval_cases k
                    · exact ⟨e1, h1, hr1⟩
                    · exact ⟨e2, h2, hr2⟩
              | error e3 =>
                  have hsend : send attempts = ⟨.error e3, [5000, 10000], 3⟩ := by
                    simp [send, sendFrom, h1, h2, h3, hr1, hr2, maxRetries,
                      baseDelayMs]
                  rw [hsend]
                  refine ⟨by norm_num, by norm_num, ?_, ?_, h3.symm⟩
                  · intro i hi
                    simp at hi
                    interval_cases i
                    · norm_num
                    · norm_num
                  · intro k hk1 hk2
                    simp at hk2
                    interval_cases k
                    · exact ⟨e1, h1, hr1⟩
                    · exact ⟨e2, h2, hr2⟩
            · have hsend : send attempts = ⟨.error e2, [5000], 2⟩ := by
                simp [send, sendFrom, h1, h2, hr1, hr2, maxRetries, baseDelayMs]
              rw [hsend]
              refine ⟨by norm_num, by norm_num, ?_, ?_, h2.symm⟩
              · intro i hi
                simp at hi
                subst hi
                norm_num
              · intro k hk1 hk2
                simp at hk2
                have hk : k = 1 := by omega
                subst hk
                exact ⟨e1, h1, hr1⟩
      · have hsend : send attempts = ⟨.error e1, [], 1⟩ := by
          simp [send, sendFrom, h1, hr1]
        rw [hsend]
        refine ⟨by norm_num, by norm_num, ?_, ?_, h1.symm⟩
        · intro i hi
          simp at hi
        · intro k hk1 hk2
          simp at hk2
          omega

/-- Attempt outcomes for the C6 witness: attempt 1 hits a transient 529
error, attempt 2 succeeds. -/
def c6ExampleAttempts : Nat → Except String String :=
  fun k => if k = 1 then .error "API Error: 529 Overloaded" else .ok "done"

/-- Witness for C6: with a transient failure then a success, one retry is
made after the base delay and the result is the success of attempt 2. -/
theorem c6_retry_backoff_policy_witness :
    (send c6ExampleAttempts).attemptsMade ≤ 3 ∧
    (send c6ExampleAttempts).delays[0]? = some (5000 * 2 ^ 0) ∧
    (∃ e, c6ExampleAttempts 1 = .error e ∧ isRetryableError e = true) ∧
    (send c6ExampleAttempts).result =
      c6ExampleAttempts (send c6ExampleAttempts).attemptsMade :=
  ⟨(c6_retry_backoff_policy c6ExampleAttempts).1,
    (c6_retry_backoff_policy c6ExampleAttempts).2.2.1 0 (by decide),
    (c6_retry_backoff_policy c6ExampleAttempts).2.2.2.1 1 (by decide) (by decide),
    (c6_retry_backoff_policy c6ExampleAttempts).2.2.2.2⟩

/-!
## The `cd` command (daemon/src/index.ts, `isCdCommand`, lines 471-495)

`isCdCommand` matches `/^cd\s+(.+)$/i` on the trimmed content, expands a
leading `~` to the home directory, resolves the target with `path.resolve`
and then accepts the result iff `resolvedPath.startsWith(homeDir) ||
resolvedPath.startsWith("/tmp")` — a plain string-prefix test.
-/

/-- Model of `String.prototype.startsWith`, structural for kernel
evaluation. -/
def startsWithString (s pat : String) : Bool :=
  charsStartWith s.toList pat.toList

/-- Split a character list on `/`. -/
def splitOnSlash : List Char → List Char → List (List Char)
  | [], acc => [acc.reverse]
  | c :: cs, acc =>
      if c = '/' then acc.reverse :: splitOnSlash cs []
      else splitOnSlash cs (c :: acc)

/-- Path segments of a POSIX path: split on `/`, dropping empty segments
and `.`. -/
def pathSegments (s : String) : List String :=
  ((splitOnSlash s.toList []).map (fun cs => String.mk cs)).filter
    (fun seg => seg ≠ "" ∧ seg ≠ ".")

/-- Collapse `..` segments against their parent (staying at the root when
there is no parent), as `path.resolve` normalisation does. -/
def collapseDots (segs : List String) : List String :=
  segs.foldl (fun acc seg => if seg = ".." then acc.dropLast else acc ++ [seg]) []

/-- Model of Node `path.resolve(target)` on POSIX with current working
directory `cwd` (assumed absolute): an absolute target is normalised as is,
a relative target is joined to `cwd` first. -/
def resolvePath (cwd target : String) : String :=
  let joined := if startsWithString target "/" then target
    else cwd ++ "/" ++ target
  "/" ++ String.intercalate "/" (collapseDots (pathSegments joined))

/-- The result record of index.ts `isCdCommand`. -/
structure CdResult where
  isCD : Bool
  path : Option String
  error : Option String
deriving Repr, DecidableEq

/-- The capture of `/^cd\s+(.+)$/i` on the trimmed content: the text after
`cd` must begin with a whitespace character and have at least one more
character; the capture is everything after the (backtracked) whitespace
run, which after the subsequent `.trim()` equals the trimmed remainder. -/
def extractCdArg (content : String) : Option String :=
  match (trimString content).toList with
  | c :: d :: w :: more =>
      if (c.toLower == 'c') && (d.toLower == 'd') && w.isWhitespace
          && !more.isEmpty then
        some (String.mk (w :: more))
      else none
  | _ => none

/-- index.ts `isCdCommand` with current working directory `cwd` (for
`path.resolve`) and home directory `home`. -/
def isCdCommand (cwd home : String) (content : String) : CdResult :=
  match extractCdArg content with
  | none => ⟨false, none, none⟩
  | some raw =>
      let targetPath := trimString raw
      let targetPath :=
        if startsWithString targetPath "~" then
          home ++ String.mk (targetPath.toList.drop 1)
        else targetPath
      let resolvedPath := resolvePath cwd targetPath
      if ¬ startsWithString resolvedPath home = true ∧
          ¬ startsWithString resolvedPath "/tmp" = true then
        ⟨true, none, some "Access denied: path outside allowed directories"⟩
      else ⟨true, some resolvedPath, none⟩

/-- Modelled from the spec: "the resolved absolute path lies under an
allowed root".  A path lies under a root when it equals the root or is a
descendant of it (root followed by a path separator). -/
def liesUnder (p root : String) : Bool :=
  p == root || startsWithString p (root ++ "/")

/-- C7.  The code accepts `cd /tmpfoo` (resolved path `/tmpfoo`) because it
checks `resolvedPath.startsWith("/tmp")` — a string-prefix test — although
`/tmpfoo` lies under neither `/tmp` nor the home directory.  This
contradicts the claim (and the adjacent code comment "Only allow paths
within home directory or /tmp"): the path is accepted, no access-denied
error is produced, and the working directory will be changed if the
directory exists. -/
theorem c7_cd_prefix_check_accepts_outside_root :
    isCdCommand "/Users/alice" "/Users/alice" "cd /tmpfoo" =
      ⟨true, some "/tmpfoo", none⟩ ∧
    liesUnder "/tmpfoo" "/tmp" = false ∧
    liesUnder "/tmpfoo" "/Users/alice" = false := by
  refine ⟨?_, ?_, ?_⟩
  · rfl
  · rfl
  · rfl

/-!
## Stream-json parsing (dist/claude-session.js, lines 128-262)

Worker stdout is split into lines.  Each non-blank line is `JSON.parse`d:
a parsed event goes through `processStreamEvent`; on a parse failure the
catch block appends the line (plus a newline) to the text output only if it
does not start with a brace.  `processStreamEvent` walks assistant content
blocks: `tool_use` blocks build an activity string and deliver it through
the throttled callback (at most once per `activityIntervalMs`,
default 1000); `text` blocks and text deltas and the final `result` are
appended to the text output.  `JSON.parse` is modelled as an oracle
`parse : String -> Option StreamEvent`.
-/

/-- The salient fields of a `tool_use` input object. -/
structure ToolInput where
  file_path : Option String := none
  command : Option String := none
  pattern : Option String := none
  query : Option String := none
deriving Repr, DecidableEq

/-- A content block of an assistant event. -/
inductive ContentBlock where
  | tool_use (name : Option String) (input : Option ToolInput)
  | text (t : Option String)
  | other
deriving Repr, DecidableEq

/-- A parsed stream-json event (the tagged shapes `processStreamEvent`
distinguishes). -/
inductive StreamEvent where
  | assistant (content : List ContentBlock)
  | assistantNoContent
  | content_block_delta (isTextDelta : Bool) (text : Option String)
  | message_start
  | message_delta
  | result (r : Option String)
  | system (message : Option String)
  | unknown
deriving Repr, DecidableEq

/-- JavaScript truthiness for an optional string: absent and empty are both
falsy. -/
def optTruthy (o : Option String) : Option String :=
  match o with
  | some s => if s = "" then none else some s
  | none => none

/-- The `TOOL_DISPLAY_NAMES` table, defaulting to the tool name itself. -/
def toolDisplayName (toolName : String) : String :=
  if toolName == "Read" then "Reading"
  else if toolName == "Glob" then "Searching files"
  else if toolName == "Grep" then "Grep"
  else if toolName == "Bash" then "Running"
  else if toolName == "Write" then "Writing"
  else if toolName == "Edit" then "Editing"
  else if toolName == "Task" then "Task"
  else if toolName == "WebFetch" then "Fetching"
  else if toolName == "WebSearch" then "Searching web"
  else if toolName == "TodoWrite" then "Updating todos"
  else toolName

/-- Build the activity string of a `tool_use` block: display name plus the
first truthy salient argument (file path, command truncated to 100
characters, search pattern, or query truncated to 80), in that priority. -/
def buildActivity (name : Option String) (input : Option ToolInput) : String :=
  let toolName := (optTruthy name).getD "Unknown"
  let displayName := toolDisplayName toolName
  match input with
  | none => displayName
  | some inp =>
      match optTruthy inp.file_path with
      | some fp => displayName ++ ": " ++ fp
      | none =>
          match optTruthy inp.command with
          | some cmd =>
              displayName ++ ": " ++ String.mk (cmd.toList.take 100) ++
                (if 100 < cmd.toList.length then "..." else "")
          | none =>
              match optTruthy inp.pattern with
              | some pat => displayName ++ ": " ++ pat
              | none =>
                  match optTruthy inp.query with
                  | some q => displayName ++ ": " ++ String.mk (q.toList.take 80)
                  | none => displayName

/-- Mutable context of one `sendAttempt`: accumulated text output, the
throttle clock (`lastActivityTime`, initially 0), the tool counter, and the
ghost trace of delivered activity callbacks as (time, activity) pairs. -/
structure StreamCtx where
  textOutput : String
  lastActivityTime : Nat
  toolCount : Nat
  delivered : List (Nat × String)
deriving Repr, DecidableEq

/-- Process one assistant content block at wall-clock time `now`
(`Date.now()` at the throttle check).  A `tool_use` block increments the
tool counter and delivers its activity string iff at least
`activityIntervalMs` elapsed since the last delivered callback; otherwise
the activity is dropped.  A `text` block appends its text. -/
def processBlock (activityIntervalMs : Nat) (hasCallback : Bool) (now : Nat)
    (ctx : StreamCtx) : ContentBlock → StreamCtx
  | .tool_use name input =>
      let ctx1 := { ctx with toolCount := ctx.toolCount + 1 }
      let activity := buildActivity name input
      if hasCallback then
        if activityIntervalMs ≤ now - ctx1.lastActivityTime then
          let d := ctx1.delivered ++ [(now, activity)]
          { ctx1 with delivered := d, lastActivityTime := now }
        else ctx1
      else ctx1
  | .text t => { ctx with textOutput := ctx.textOutput ++ t.getD "" }
  | .other => ctx

/-- dist/claude-session.js `processStreamEvent`. -/
def processStreamEvent (activityIntervalMs : Nat) (hasCallback : Bool)
    (now : Nat) (ctx : StreamCtx) : StreamEvent → StreamCtx
  | .assistant blocks =>
      blocks.foldl (processBlock activityIntervalMs hasCallback now) ctx
  | .assistantNoContent => ctx
  | .content_block_delta isTextDelta t =>
      if isTextDelta then { ctx with textOutput := ctx.textOutput ++ t.getD "" }
      else ctx
  | .message_start => ctx
  | .message_delta => ctx
  | .result r =>
      match optTruthy r with
      | some s => { ctx with textOutput := ctx.textOutput ++ s }
      | none => ctx
  | .system _ => ctx
  | .unknown => ctx

/-- The per-line stdout handler: blank lines are skipped; a line that
parses is processed as an event; a line that fails to parse is appended as
raw text (with a newline) unless it starts with an opening brace, in which
case it is silently dropped. -/
def processLine (parse : String → Option StreamEvent)
    (activityIntervalMs : Nat) (hasCallback : Bool) (now : Nat)
    (ctx : StreamCtx) (line : String) : StreamCtx :=
  if trimString line = "" then ctx
  else
    match parse line with
    | some ev => processStreamEvent activityIntervalMs hasCallback now ctx ev
    | none =>
        if trimString line ≠ "" ∧ startsWithString line "\x7b" = false then
          { ctx with textOutput := ctx.textOutput ++ line ++ "\n" }
        else ctx

/-- C8 counterexample.  The line `\x7boops` is not valid JSON, so
`JSON.parse` throws on it (the parse oracle returns none); it is non-blank,
yet the catch block drops it — nothing is appended to the accumulated
output, because the raw-text fallback excludes every line starting with an
opening brace. -/
theorem c8_malformed_brace_line_dropped :
    (processLine (fun _ => none) 1000 true 0 ⟨"", 0, 0, []⟩
        "\x7boops").textOutput = "" ∧
    trimString "\x7boops" ≠ "" := by
  constructor
  · rfl
  · decide

/-- C8 (amended).  A line that fails to parse as JSON is never fatal: if it
does not start with an opening brace it is appended to the accumulated
output verbatim plus a newline, and if it does start with an opening brace
it is silently dropped. -/
theorem c8_malformed_line_raw_fallback (parse : String → Option StreamEvent)
    (activityIntervalMs : Nat) (hasCallback : Bool) (now : Nat)
    (ctx : StreamCtx) (line : String)
    (hmal : parse line = none) (hnb : trimString line ≠ "") :
    (processLine parse activityIntervalMs hasCallback now ctx line).textOutput =
      if startsWithString line "\x7b" then ctx.textOutput
      else ctx.textOutput ++ line ++ "\n" := by
  unfold processLine
  rw [if_neg hnb, hmal]
  by_cases hb : startsWithString line "\x7b"
  · simp [hb]
  · have hb' : startsWithString line "\x7b" = false := by
      simpa using hb
    simp [hb', hnb]

/-- Witness for the amended C8: a malformed non-brace line is appended with
a newline. -/
theorem c8_malformed_line_raw_fallback_witness :
    (processLine (fun _ => none) 1000 true 0 ⟨"", 0, 0, []⟩
        "plain diagnostics").textOutput =
      if startsWithString "plain diagnostics" "\x7b" then ""
      else "" ++ "plain diagnostics" ++ "\n" :=
  c8_malformed_line_raw_fallback (fun _ => none) 1000 true 0 ⟨"", 0, 0, []⟩
    "plain diagnostics" rfl (by decide)

/-- Run `processStreamEvent` over a stream of events, each tagged with the
`Date.now()` value at which it is processed.  This is the event sequence of
one `sendAttempt` (one `send` invocation). -/
def runStream (activityIntervalMs : Nat) (hasCallback : Bool)
    (ctx : StreamCtx) (events : List (Nat × StreamEvent)) : StreamCtx :=
  events.foldl
    (fun c pe => processStreamEvent activityIntervalMs hasCallback pe.1 c pe.2)
    ctx

/-- Throttle invariant: consecutive delivered callbacks are at least one
interval apart, and every delivered callback is no later than the throttle
clock. -/
def ThrottleInv (activityIntervalMs : Nat) (ctx : StreamCtx) : Prop :=
  List.Chain' (fun a b => a.1 + activityIntervalMs ≤ b.1) ctx.delivered ∧
  ∀ x ∈ ctx.delivered, x.1 ≤ ctx.lastActivityTime

lemma processBlock_throttle {activityIntervalMs : Nat} {hasCallback : Bool}
    {now : Nat} {ctx : StreamCtx} (b : ContentBlock)
    (hi : 1 ≤ activityIntervalMs)
    (hinv : ThrottleInv activityIntervalMs ctx)
    (hl : ctx.lastActivityTime ≤ now) :
    ThrottleInv activityIntervalMs
        (processBlock activityIntervalMs hasCallback now ctx b) ∧
    (processBlock activityIntervalMs hasCallback now ctx b).lastActivityTime ≤ now ∧
    ∀ x ∈ (processBlock activityIntervalMs hasCallback now ctx b).delivered,
      x ∈ ctx.delivered ∨ x.1 = now := by
  obtain ⟨hchain, hle⟩ := hinv
  cases b with
  | text t => exact ⟨⟨hchain, hle⟩, hl, fun x hx => Or.inl hx⟩
  | other => exact ⟨⟨hchain, hle⟩, hl, fun x hx => Or.inl hx⟩
  | tool_use name input =>
      simp only [processBlock]
      by_cases hcb : hasCallback
      · simp only [hcb, if_true]
        by_cases hfire : activityIntervalMs ≤ now - ctx.lastActivityTime
        · simp only [hfire, if_true]
          have hnow : ctx.lastActivityTime + activityIntervalMs ≤ now := by
            omega
          refine ⟨⟨?_, ?_⟩, le_refl now, ?_⟩
          · rw [List.chain'_append]
            refine ⟨hchain, List.chain'_singleton _, ?_⟩
            intro x hx y hy
            simp only [List.head?_cons, Option.mem_def, Option.some.injEq] at hy
            subst hy
            have hxmem : x ∈ ctx.delivered := List.mem_of_mem_getLast? hx
            have := hle x hxmem
            simp only
            omega
          · intro x hx
            rcases List.mem_append.mp hx with hx' | hx'
            · have := hle x hx'
              simp only
              omega
            · simp at hx'
              simp [hx']
          · intro x hx
            rcases List.mem_append.mp hx with hx' | hx'
            · exact Or.inl hx'
            · simp at hx'
              right
              rw [hx']
        · simp only [hfire, if_false]
          exact ⟨⟨hchain, hle⟩, hl, fun x hx => Or.inl hx⟩
      · simp only [hcb, if_false]
        exact ⟨⟨hchain, hle⟩, hl, fun x hx => Or.inl hx⟩

lemma foldl_processBlock_throttle {activityIntervalMs : Nat}
    {hasCallback : Bool} {now : Nat} (blocks : List ContentBlock) :
    ∀ ctx : StreamCtx, 1 ≤ activityIntervalMs →
      ThrottleInv activityIntervalMs ctx → ctx.lastActivityTime ≤ now →
      ThrottleInv activityIntervalMs
          (blocks.foldl (processBlock activityIntervalMs hasCallback now) ctx) ∧
      (blocks.foldl (processBlock activityIntervalMs hasCallback now)
          ctx).lastActivityTime ≤ now ∧
      ∀ x ∈ (blocks.foldl (processBlock activityIntervalMs hasCallback now)
          ctx).delivered, x ∈ ctx.delivered ∨ x.1 = now := by
  induction blocks with
  | nil => intro ctx _ hinv hl; exact ⟨hinv, hl, fun x hx => Or.inl hx⟩
  | cons b rest ih =>
      intro ctx hi hinv hl
      obtain ⟨hinv1, hl1, hmem1⟩ := processBlock_throttle b hi hinv hl
      obtain ⟨hinv2, hl2, hmem2⟩ :=
        ih (processBlock activityIntervalMs hasCallback now ctx b) hi hinv1 hl1
      refine ⟨hinv2, hl2, ?_⟩
      intro x hx
      rcases hmem2 x hx with hx' | hx'
      · exact hmem1 x hx'
      · exact Or.inr hx'

lemma processStreamEvent_throttle {activityIntervalMs : Nat}
    {hasCallback : Bool} {now : Nat} {ctx : StreamCtx} (ev : StreamEvent)
    (hi : 1 ≤ activityIntervalMs)
    (hinv : ThrottleInv activityIntervalMs ctx)
    (hl : ctx.lastActivityTime ≤ now) :
    ThrottleInv activityIntervalMs
        (processStreamEvent activityIntervalMs hasCallback now ctx ev) ∧
    (processStreamEvent activityIntervalMs hasCallback now
        ctx ev).lastActivityTime ≤ now ∧
    ∀ x ∈ (processStreamEvent activityIntervalMs hasCallback now
        ctx ev).delivered, x ∈ ctx.delivered ∨ x.1 = now := by
  cases ev with
  | assistant blocks => exact foldl_processBlock_throttle blocks ctx hi hinv hl
  | assistantNoContent => exact ⟨hinv, hl, fun x hx => Or.inl hx⟩
  | content_block_delta isTextDelta t =>
      simp only [processStreamEvent]
      by_cases hd : isTextDelta
      · simp only [hd, if_true]
        exact ⟨hinv, hl, fun x hx => Or.inl hx⟩
      · simp only [hd, if_false]
        exact ⟨hinv, hl, fun x hx => Or.inl hx⟩
  | message_start => exact ⟨hinv, hl, fun x hx => Or.inl hx⟩
  | message_delta => exact ⟨hinv, hl, fun x hx => Or.inl hx⟩
  | result r =>
      simp only [processStreamEvent]
      cases optTruthy r with
      | some s => exact ⟨hinv, hl, fun x hx => Or.inl hx⟩
      | none => exact ⟨hinv, hl, fun x hx => Or.inl hx⟩
  | system m => exact ⟨hinv, hl, fun x hx => Or.inl hx⟩
  | unknown => exact ⟨hinv, hl, fun x hx => Or.inl hx⟩

lemma runStream_throttle {activityIntervalMs : Nat} {hasCallback : Bool}
    (events : List (Nat × StreamEvent)) :
    ∀ ctx : StreamCtx, 1 ≤ activityIntervalMs →
      ThrottleInv activityIntervalMs ctx →
      (∀ e ∈ events, ctx.lastActivityTime ≤ e.1) →
      List.Pairwise (fun a b => a.1 ≤ b.1) events →
      ThrottleInv activityIntervalMs
          (runStream activityIntervalMs hasCallback ctx events) ∧
      ∀ x ∈ (runStream activityIntervalMs hasCallback ctx events).delivered,
        x ∈ ctx.delivered ∨ x.1 ∈ events.map Prod.fst := by
  induction events with
  | nil =>
      intro ctx _ hinv _ _
      exact ⟨hinv, fun x hx => Or.inl hx⟩
  | cons e rest ih =>
      intro ctx hi hinv hfirst hpw
      obtain ⟨hpw1, hpw2⟩ := List.pairwise_cons.mp hpw
      obtain ⟨hinv1, hl1, hmem1⟩ := processStreamEvent_throttle e.2 hi hinv
        (hfirst e (List.mem_cons_self e rest))
      have hfirst1 : ∀ e' ∈ rest,
          (processStreamEvent activityIntervalMs hasCallback e.1
            ctx e.2).lastActivityTime ≤ e'.1 :=
        fun e' he' => le_trans hl1 (hpw1 e' he')
      obtain ⟨hinv2, hmem2⟩ := ih _ hi hinv1 hfirst1 hpw2
      refine ⟨hinv2, ?_⟩
      intro x hx
      rcases hmem2 x hx with hx' | hx'
      · rcases hmem1 x hx' with hx'' | hx''
        · exact Or.inl hx''
        · right
          simp [hx'']
      · right
        simp only [List.map_cons, List.mem_cons]
        exact Or.inr hx'

/-- C10.  Within a single send invocation — the event stream of one
`sendAttempt`, processed at nondecreasing `Date.now()` instants — the
tool-activity callback is delivered at most once per activity interval:
consecutive delivered callbacks are at least `activityIntervalMs` apart
(the daemon passes 1000 ms), and every delivered callback is delivered at
the arrival instant of the event that produced it, so an event throttled
away (arriving less than one interval after the last delivered callback)
is dropped for good, never deferred. -/
theorem c10_activity_callback_throttled (activityIntervalMs : Nat)
    (hi : 1 ≤ activityIntervalMs) (events : List (Nat × StreamEvent))
    (hmono : List.Pairwise (fun a b => a.1 ≤ b.1) events) :
    List.Chain' (fun a b => a.1 + activityIntervalMs ≤ b.1)
      (runStream activityIntervalMs true ⟨"", 0, 0, []⟩ events).delivered ∧
    ∀ x ∈ (runStream activityIntervalMs true ⟨"", 0, 0, []⟩ events).delivered,
      x.1 ∈ events.map Prod.fst := by
  have h := @runStream_throttle activityIntervalMs true events ⟨"", 0, 0, []⟩ hi
    ⟨List.chain'_nil, by intro x hx; simp at hx⟩
    (fun e _ => Nat.zero_le e.1) hmono
  refine ⟨h.1.1, ?_⟩
  intro x hx
  rcases h.2 x hx with hx' | hx'
  · simp at hx'
  · exact hx'

/-- The event stream for the C10 witness: three tool-use events at
t = 5000, 5500, 6500 with a 1000 ms interval — the middle one arrives only
500 ms after the first delivery. -/
def c10ExampleEvents : List (Nat × StreamEvent) :=
  [(5000, .assistant [.tool_use (some "Read")
      (some ⟨some "/tmp/a.txt", none, none, none⟩)]),
   (5500, .assistant [.tool_use (some "Bash")
      (some ⟨none, some "ls", none, none⟩)]),
   (6500, .assistant [.tool_use (some "Grep")
      (some ⟨none, none, some "todo", none⟩)])]

/-- Witness for C10: the deliveries are at least 1000 ms apart, each at the
arrival time of its event, and the event at t = 5500 is dropped — exactly
the t = 5000 and t = 6500 callbacks are delivered. -/
theorem c10_activity_callback_throttled_witness :
    (List.Chain' (fun a b => a.1 + 1000 ≤ b.1)
        (runStream 1000 true ⟨"", 0, 0, []⟩ c10ExampleEvents).delivered ∧
      ∀ x ∈ (runStream 1000 true ⟨"", 0, 0, []⟩ c10ExampleEvents).delivered,
        x.1 ∈ c10ExampleEvents.map Prod.fst) ∧
    (runStream 1000 true ⟨"", 0, 0, []⟩ c10ExampleEvents).delivered.map
        Prod.fst = [5000, 6500] :=
  ⟨c10_activity_callback_throttled 1000 (by decide) c10ExampleEvents
      (by decide),
    by decide⟩

end TextMe
